import Mathlib

/-!
Shallow embedding of the periodic background task runner ("Worker") of
src/rust/src/worker.rs, together with proofs about its run loop, its
public API and its destructor.

Modelling conventions:
* `Duration` and `Instant` values are abstract integer time units (`Nat`);
  `Instant + Duration`, `Instant - Instant` and `Instant` comparison map
  to `Nat` arithmetic.
* The three callbacks are opaque identifiers of a type `F`, and the
  argument an opaque duplicable value of a type `A` (cloning yields an
  equal value).  The background thread does not call the callbacks in the
  model; it records invocation events, one per call site.
* Panics (`.expect` on a poisoned mutex) are modelled as `Except.error`
  carrying the panic message.
* Real time, the scheduler and the condition variable are nondeterministic;
  each source of nondeterminism is an explicit oracle argument: the value
  of `Instant::now()` at each call site, the value of `intval` observed
  under the lock at each iteration (it may be changed concurrently by
  `set_interval`), and the reason each condvar wait returned.
-/

namespace LibacfutilsWorker

/-- Reasons a condition-variable timed wait can return: the timeout
elapsed, an explicit `notify_one` (from `set_interval`, `wake_up` or the
destructor), or a spurious wake.  The source discards the result of
`wait_timeout` (line 72: `_ = wk.1.wait_timeout(..)`). -/
inductive WakeReason
  | timeout
  | notified
  | spurious
deriving DecidableEq

/-- Shared worker configuration, mirroring `struct WorkerConfig` of
src/rust/src/worker.rs lines 22-30. -/
structure WorkerConfig (F A : Type) where
  intval : Nat
  shutdown : Bool
  init_func : Option F
  worker_func : F
  fini_func : Option F
  arg : A
deriving DecidableEq

/-- The shared `Mutex<WorkerConfig>` together with its poisoned flag.
A mutex becomes poisoned when a thread panics while holding it. -/
structure MutexCell (F A : Type) where
  poisoned : Bool
  cfg : WorkerConfig F A
deriving DecidableEq

/-- The panic message used at every `.expect` on the worker mutex. -/
def mutexPanicMsg : String := "mutex is in a panicked state"

/-- Acquiring the lock: `wk.0.lock().expect("mutex is in a panicked
state")`.  On a poisoned mutex the `.expect` panics, modelled as
`Except.error`; otherwise the guarded configuration is obtained. -/
def lockCell {F A : Type} (m : MutexCell F A) :
    Except String (WorkerConfig F A) :=
  if m.poisoned then Except.error mutexPanicMsg
  else Except.ok m.cfg

/-- Observable events of the background thread.  Each call event records
the callback identifier and the (cloned) argument passed to it, tagged by
call site. -/
inductive Event (F A : Type)
  | initCall (f : F) (a : A)
  | workerCall (f : F) (a : A)
  | finiCall (f : F) (a : A)
  | waited (timeoutDur : Nat)
  | skippedWait
deriving DecidableEq

/-- Whether an event is the init-phase callback invocation. -/
def Event.isInit {F A : Type} : Event F A → Bool
  | Event.initCall _ _ => true
  | _ => false

/-- Whether an event is a periodic task invocation. -/
def Event.isWorker {F A : Type} : Event F A → Bool
  | Event.workerCall _ _ => true
  | _ => false

/-- Whether an event is the fini-phase callback invocation. -/
def Event.isFini {F A : Type} : Event F A → Bool
  | Event.finiCall _ _ => true
  | _ => false

/-- Whether an event is a wait-step event (a condvar wait or an explicit
skip of it). -/
def Event.isWait {F A : Type} : Event F A → Bool
  | Event.waited _ => true
  | Event.skippedWait => true
  | _ => false

/-- One wait step of `worker_run` (lines 56-77 of worker.rs): from the
current anchor `last`, the `intval` read under the reacquired lock and
`Instant::now()`, compute the new anchor and the `wait_timeout` duration
(`none` when the deadline has already passed and the wait is skipped).
The source computes `next = last + data.intval` and tests `next > now`;
on the wait branch it sets `last = next`, otherwise `last = now`. -/
def waitStep (last intval now : Nat) : Nat × Option Nat :=
  let next := last + intval
  if now < next then (next, some (next - now)) else (now, none)

/-- The trace event of a wait step: either a condvar wait with the given
timeout, or no wait at all. -/
def waitEvt {F A : Type} : Option Nat → Event F A
  | some d => Event.waited d
  | none => Event.skippedWait

/-- The steady-state loop of `worker_run` (lines 42-78), as the event
trace of an execution in which the `shutdown` flag is observed `false` at
the first `n` top-of-loop checks and `true` at check `n`.  Since
`shutdown` moves only from `false` to `true` (proved about the API
below), every terminating execution of the loop has this shape for its
number `n` of completed iterations.

`i` is the index of the current iteration; `last` is the loop variable
`last` of the source.  `nowAt i` is `Instant::now()` at line 60 of
iteration `i`; `intvalAt i` is `data.intval` read under the lock at line
59 of iteration `i` (it may differ from the construction-time value when
`set_interval` ran concurrently); `wakeAt i` is the reason the wait of
iteration `i` returned, discarded exactly as the source discards the
`wait_timeout` result.  `worker_func` and `arg` are re-read under the
lock each iteration in the source, but no operation ever writes them, so
the trace uses the fixed values `wf` and `a`. -/
def runLoop {F A : Type} (wf : F) (a : A) (nowAt intvalAt : Nat → Nat)
    (wakeAt : Nat → WakeReason) (i last : Nat) : Nat → List (Event F A)
  | 0 => []
  | n + 1 =>
    let step := waitStep last (intvalAt i) (nowAt i)
    let _wakeReason := wakeAt i
    Event.workerCall wf a :: waitEvt step.2 ::
      runLoop wf a nowAt intvalAt wakeAt (i + 1) step.1 n

/-- The value of the loop variable `last` at the start of iteration `i`
of the steady-state loop, starting from `startNow` (line 41:
`let mut last = Instant::now()`). -/
def lastSeq (startNow : Nat) (nowAt intvalAt : Nat → Nat) : Nat → Nat
  | 0 => startNow
  | i + 1 =>
    (waitStep (lastSeq startNow nowAt intvalAt i) (intvalAt i) (nowAt i)).1

/-- Events of the init phase of `worker_run` (lines 33-40): `init_func`
and a clone of `arg` are read under the lock, and the callback is
invoked outside the lock when present. -/
def initSeg {F A : Type} (cfg : WorkerConfig F A) : List (Event F A) :=
  match cfg.init_func with
  | some f => [Event.initCall f cfg.arg]
  | none => []

/-- Events of the fini phase of `worker_run` (lines 79-86): `fini_func`
and a clone of `arg` are read under the lock, and the callback is
invoked outside the lock when present. -/
def finiSeg {F A : Type} (cfg : WorkerConfig F A) : List (Event F A) :=
  match cfg.fini_func with
  | some f => [Event.finiCall f cfg.arg]
  | none => []

/-- Full lifetime trace of the background thread: `worker_run`, lines
32-87 of worker.rs.  The init phase runs first; then the steady-state
loop runs with `last` initialised to `startNow` (line 41); after the
loop observes `shutdown`, the fini phase runs and the thread
terminates. -/
def worker_run {F A : Type} (cfg : WorkerConfig F A) (startNow : Nat)
    (nowAt intvalAt : Nat → Nat) (wakeAt : Nat → WakeReason) (n : Nat) :
    List (Event F A) :=
  initSeg cfg ++
    runLoop cfg.worker_func cfg.arg nowAt intvalAt wakeAt 0 startNow n ++
    finiSeg cfg

/-- The control-side `Worker` handle (lines 14-18 of worker.rs): an
optional join handle (thread identifiers are abstract `Nat`) and the
shared `Arc<(Mutex<WorkerConfig>, Condvar)>`, modelled by the
`MutexCell`; condvar notifications are reported as booleans by the
operations that issue them. -/
structure Worker (F A : Type) where
  thread : Option Nat
  cell : MutexCell F A
deriving DecidableEq

/-- The typed error returned by `start` on an already-started worker
(lines 89-95 of worker.rs). -/
structure WorkerAlreadyStartedError where
deriving DecidableEq

/-- `Worker::new` (lines 98-120): allocates the shared state with
`shutdown = false` and returns a handle with no thread. -/
def Worker.new {F A : Type} (intval : Nat) (init_func : Option F)
    (worker_func : F) (fini_func : Option F) (arg : A) : Worker F A :=
  { thread := none,
    cell :=
      { poisoned := false,
        cfg :=
          { intval := intval, shutdown := false, init_func := init_func,
            worker_func := worker_func, fini_func := fini_func,
            arg := arg } } }

/-- Outcome of a `Worker::start` call (lines 121-130): the returned
`Result`, the updated handle, and the number of threads spawned by the
call. -/
structure StartResult (F A : Type) where
  result : Except WorkerAlreadyStartedError Unit
  worker : Worker F A
  spawned : Nat

/-- `Worker::start` (lines 121-130): when no thread exists, spawn one
running `worker_run` against the shared state and return `Ok`; when a
thread already exists, return `Err(WorkerAlreadyStartedError)` and spawn
nothing.  `newTid` is the identifier of the thread that would be
spawned. -/
def Worker.start {F A : Type} (w : Worker F A) (newTid : Nat) :
    StartResult F A :=
  match w.thread with
  | none =>
    { result := Except.ok (),
      worker := { w with thread := some newTid },
      spawned := 1 }
  | some _ =>
    { result := Except.error {}, worker := w, spawned := 0 }

/-- `Worker::is_started` (lines 131-133). -/
def Worker.is_started {F A : Type} (w : Worker F A) : Bool :=
  w.thread.isSome

/-- `Worker::get_interval` (lines 134-140): read `intval` under the
lock; panics on a poisoned mutex. -/
def Worker.get_interval {F A : Type} (w : Worker F A) :
    Except String Nat :=
  (lockCell w.cell).map fun d => d.intval

/-- `Worker::set_interval` (lines 141-145): write `intval` under the
lock, then `notify_one` on the condvar.  The boolean records that the
notify was issued; panics on a poisoned mutex. -/
def Worker.set_interval {F A : Type} (w : Worker F A) (intval : Nat) :
    Except String (Worker F A × Bool) :=
  match lockCell w.cell with
  | Except.error e => Except.error e
  | Except.ok cfg =>
    Except.ok
      ({ w with cell := { w.cell with cfg := { cfg with intval := intval } } },
       true)

/-- `Worker::set_interval_nowake` (lines 146-152): write `intval` under
the lock without notifying; panics on a poisoned mutex. -/
def Worker.set_interval_nowake {F A : Type} (w : Worker F A)
    (intval : Nat) : Except String (Worker F A) :=
  match lockCell w.cell with
  | Except.error e => Except.error e
  | Except.ok cfg =>
    Except.ok
      { w with cell := { w.cell with cfg := { cfg with intval := intval } } }

/-- `Worker::wake_up` (lines 153-155): `notify_one` without taking the
lock and without touching any state.  Returns the unchanged handle and
the fact that a notify was issued. -/
def Worker.wake_up {F A : Type} (w : Worker F A) : Worker F A × Bool :=
  (w, true)

/-- Control-side steps of the destructor, in source order. -/
inductive CtlAction
  | lockAcq
  | setShutdownTrue
  | notifyOne
  | unlock
  | joinThread
deriving DecidableEq

/-- Action sequence of `Drop::drop` for `Worker` (lines 158-171, healthy
mutex): take the lock, set `shutdown = true`, `notify_one`, release the
lock at the end of the inner block, then join the background thread when
a handle exists (`if let Some(thread) = self.thread.take()`). -/
def dropActions {F A : Type} (w : Worker F A) : List CtlAction :=
  [CtlAction.lockAcq, CtlAction.setShutdownTrue, CtlAction.notifyOne,
   CtlAction.unlock] ++
  (match w.thread with
   | some _ => [CtlAction.joinThread]
   | none => [])

/-- State effect of `Drop::drop` (lines 158-171): set `shutdown` under
the lock; `self.thread.take()` empties the handle before the join.
Panics (`Except.error`) on a poisoned mutex. -/
def Worker.drop {F A : Type} (w : Worker F A) :
    Except String (Worker F A) :=
  match lockCell w.cell with
  | Except.error e => Except.error e
  | Except.ok cfg =>
    Except.ok
      { thread := none,
        cell := { w.cell with cfg := { cfg with shutdown := true } } }

/-- Thread events that have completed by the time `Drop::drop` returns:
`thread.join()` blocks until the thread function `worker_run` has run to
completion, so for a started worker the whole lifetime trace has
happened; for a never-started worker no thread exists and no thread
event ever occurs. -/
def eventsAtDropReturn {F A : Type} (w : Worker F A) (startNow : Nat)
    (nowAt intvalAt : Nat → Nat) (wakeAt : Nat → WakeReason) (n : Nat) :
    List (Event F A) :=
  match w.thread with
  | some _ => worker_run w.cell.cfg startNow nowAt intvalAt wakeAt n
  | none => []

/-- Lock site of `worker_run` lines 34-37: read `init_func` and a clone
of `arg` under the lock, to call the callback outside the lock. -/
def worker_run_init_read {F A : Type} (m : MutexCell F A) :
    Except String (Option F × A) :=
  (lockCell m).map fun d => (d.init_func, d.arg)

/-- Lock site of `worker_run` lines 47-53: check `shutdown` and copy out
`worker_func` and a clone of `arg`. -/
def worker_run_loop_check {F A : Type} (m : MutexCell F A) :
    Except String (Bool × F × A) :=
  (lockCell m).map fun d => (d.shutdown, d.worker_func, d.arg)

/-- Lock site of `worker_run` line 58: reacquire the lock before the
wait; the guard is used to read `intval` for the deadline computation. -/
def worker_run_wait_read {F A : Type} (m : MutexCell F A) :
    Except String Nat :=
  (lockCell m).map fun d => d.intval

/-- Lock site of `worker_run` lines 80-83: read `fini_func` and a clone
of `arg` under the lock. -/
def worker_run_fini_read {F A : Type} (m : MutexCell F A) :
    Except String (Option F × A) :=
  (lockCell m).map fun d => (d.fini_func, d.arg)

/-! Helper lemmas about the trace functions. -/

theorem runLoop_succ {F A : Type} (wf : F) (a : A)
    (nowAt intvalAt : Nat → Nat) (wakeAt : Nat → WakeReason)
    (i last n : Nat) :
    runLoop wf a nowAt intvalAt wakeAt i last (n + 1) =
      Event.workerCall wf a ::
        waitEvt (waitStep last (intvalAt i) (nowAt i)).2 ::
        runLoop wf a nowAt intvalAt wakeAt (i + 1)
          (waitStep last (intvalAt i) (nowAt i)).1 n := rfl

theorem waitStep_future (last intval now : Nat)
    (h : now < last + intval) :
    waitStep last intval now = (last + intval, some (last + intval - now)) := by
  simp [waitStep, h]

theorem waitStep_overdue (last intval now : Nat)
    (h : last + intval ≤ now) :
    waitStep last intval now = (now, none) := by
  simp [waitStep, Nat.not_lt.mpr h]

theorem isWorker_waitEvt {F A : Type} (o : Option Nat) :
    Event.isWorker (waitEvt (F := F) (A := A) o) = false := by
  cases o <;> rfl

theorem isInit_waitEvt {F A : Type} (o : Option Nat) :
    Event.isInit (waitEvt (F := F) (A := A) o) = false := by
  cases o <;> rfl

theorem isFini_waitEvt {F A : Type} (o : Option Nat) :
    Event.isFini (waitEvt (F := F) (A := A) o) = false := by
  cases o <;> rfl

theorem isWorker_workerCall {F A : Type} (f : F) (a : A) :
    Event.isWorker (Event.workerCall f a) = true := rfl

theorem isInit_workerCall {F A : Type} (f : F) (a : A) :
    Event.isInit (Event.workerCall f a) = false := rfl

theorem isFini_workerCall {F A : Type} (f : F) (a : A) :
    Event.isFini (Event.workerCall f a) = false := rfl

theorem countP_runLoop_worker {F A : Type} (wf : F) (a : A)
    (nowAt intvalAt : Nat → Nat) (wakeAt : Nat → WakeReason)
    (i last n : Nat) :
    List.countP (fun e => Event.isWorker e)
      (runLoop wf a nowAt intvalAt wakeAt i last n) = n := by
  induction n generalizing i last with
  | zero => rfl
  | succ n ih =>
    rw [runLoop_succ, List.countP_cons, List.countP_cons, ih]
    simp [isWorker_waitEvt, isWorker_workerCall]

theorem countP_runLoop_init {F A : Type} (wf : F) (a : A)
    (nowAt intvalAt : Nat → Nat) (wakeAt : Nat → WakeReason)
    (i last n : Nat) :
    List.countP (fun e => Event.isInit e)
      (runLoop wf a nowAt intvalAt wakeAt i last n) = 0 := by
  induction n generalizing i last with
  | zero => rfl
  | succ n ih =>
    rw [runLoop_succ, List.countP_cons, List.countP_cons, ih]
    simp [isInit_waitEvt, isInit_workerCall]

theorem countP_runLoop_fini {F A : Type} (wf : F) (a : A)
    (nowAt intvalAt : Nat → Nat) (wakeAt : Nat → WakeReason)
    (i last n : Nat) :
    List.countP (fun e => Event.isFini e)
      (runLoop wf a nowAt intvalAt wakeAt i last n) = 0 := by
  induction n generalizing i last with
  | zero => rfl
  | succ n ih =>
    rw [runLoop_succ, List.countP_cons, List.countP_cons, ih]
    simp [isFini_waitEvt, isFini_workerCall]

theorem countP_split_ne {α : Type} (p : α → Bool) (l₁ l₂ : List α)
    (e : α) (he : p e = true) :
    List.countP p (l₁ ++ e :: l₂) ≠ 0 := by
  intro h0
  rw [List.countP_eq_zero] at h0
  exact h0 e (by simp) he

theorem nil_ne_split {α : Type} (l₁ l₂ : List α) (e : α) :
    ([] : List α) ≠ l₁ ++ e :: l₂ := by
  intro h
  have hl := congrArg List.length h
  simp only [List.length_nil, List.length_append, List.length_cons] at hl
  omega

theorem singleton_eq_split {α : Type} (x e : α) (l₁ l₂ : List α)
    (h : [x] = l₁ ++ e :: l₂) : l₁ = [] ∧ x = e ∧ l₂ = [] := by
  cases l₁ with
  | nil =>
    rw [List.nil_append] at h
    injection h with h1 h2
    exact ⟨rfl, h1, h2.symm⟩
  | cons y l₁ =>
    rw [List.cons_append] at h
    injection h with h1 h2
    exact absurd h2 (nil_ne_split l₁ l₂ e)

theorem split_in_tail {α : Type} (p : α → Bool) (e : α)
    (he : p e = true) :
    ∀ (h t l₁ l₂ : List α), List.countP p h = 0 →
      h ++ t = l₁ ++ e :: l₂ → ∃ t₁, t = t₁ ++ e :: l₂ := by
  intro h
  induction h with
  | nil =>
    intro t l₁ l₂ _ hs
    exact ⟨l₁, by simpa using hs⟩
  | cons x h ih =>
    intro t l₁ l₂ hh hs
    rw [List.countP_cons] at hh
    by_cases hx : p x = true
    · rw [hx] at hh
      simp at hh
    · have hh' : List.countP p h = 0 := by
        rcases Nat.eq_zero_of_add_eq_zero_right hh with h'
        exact h'
      cases l₁ with
      | nil =>
        rw [List.cons_append, List.nil_append] at hs
        injection hs with h1 h2
        rw [h1] at hx
        exact absurd he hx
      | cons y l₁ =>
        rw [List.cons_append, List.cons_append] at hs
        injection hs with h1 h2
        exact ih t l₁ l₂ hh' h2

theorem split_in_head {α : Type} (p : α → Bool) (e : α)
    (he : p e = true) :
    ∀ (l₁ h t l₂ : List α), List.countP p t = 0 →
      h ++ t = l₁ ++ e :: l₂ → ∃ h₂, h = l₁ ++ e :: h₂ := by
  intro l₁
  induction l₁ with
  | nil =>
    intro h t l₂ ht hs
    cases h with
    | nil =>
      rw [List.nil_append, List.nil_append] at hs
      rw [hs] at ht
      exact absurd ht (countP_split_ne p [] l₂ e he)
    | cons x h =>
      rw [List.cons_append, List.nil_append] at hs
      injection hs with h1 h2
      exact ⟨h, by rw [h1, List.nil_append]⟩
  | cons y l₁ ih =>
    intro h t l₂ ht hs
    cases h with
    | nil =>
      rw [List.nil_append] at hs
      rw [hs] at ht
      exact absurd ht (countP_split_ne p (y :: l₁) l₂ e he)
    | cons x h =>
      rw [List.cons_append, List.cons_append] at hs
      injection hs with h1 h2
      obtain ⟨h₂, hh₂⟩ := ih h t l₂ ht h2
      exact ⟨h₂, by rw [List.cons_append, h1, hh₂]⟩

theorem countP_initSeg_init {F A : Type} (cfg : WorkerConfig F A) :
    List.countP (fun e => Event.isInit e) (initSeg cfg) =
      if cfg.init_func.isSome then 1 else 0 := by
  cases hc : cfg.init_func <;> simp [initSeg, hc, Event.isInit]

theorem countP_initSeg_worker {F A : Type} (cfg : WorkerConfig F A) :
    List.countP (fun e => Event.isWorker e) (initSeg cfg) = 0 := by
  cases hc : cfg.init_func <;> simp [initSeg, hc, Event.isWorker]

theorem countP_initSeg_fini {F A : Type} (cfg : WorkerConfig F A) :
    List.countP (fun e => Event.isFini e) (initSeg cfg) = 0 := by
  cases hc : cfg.init_func <;> simp [initSeg, hc, Event.isFini]

theorem countP_finiSeg_fini {F A : Type} (cfg : WorkerConfig F A) :
    List.countP (fun e => Event.isFini e) (finiSeg cfg) =
      if cfg.fini_func.isSome then 1 else 0 := by
  cases hc : cfg.fini_func <;> simp [finiSeg, hc, Event.isFini]

theorem countP_finiSeg_worker {F A : Type} (cfg : WorkerConfig F A) :
    List.countP (fun e => Event.isWorker e) (finiSeg cfg) = 0 := by
  cases hc : cfg.fini_func <;> simp [finiSeg, hc, Event.isWorker]

theorem countP_finiSeg_init {F A : Type} (cfg : WorkerConfig F A) :
    List.countP (fun e => Event.isInit e) (finiSeg cfg) = 0 := by
  cases hc : cfg.fini_func <;> simp [finiSeg, hc, Event.isInit]

theorem no_worker_before_init {F A : Type} (cfg : WorkerConfig F A)
    (startNow : Nat) (nowAt intvalAt : Nat → Nat)
    (wakeAt : Nat → WakeReason) (n : Nat) :
    ∀ l₁ (e : Event F A) l₂,
      worker_run cfg startNow nowAt intvalAt wakeAt n = l₁ ++ e :: l₂ →
      Event.isInit e = true →
      List.countP (fun x => Event.isWorker x) l₁ = 0 := by
  intro l₁ e l₂ hs he
  unfold worker_run at hs
  rw [List.append_assoc] at hs
  have hct : List.countP (fun x => Event.isInit x)
      (runLoop cfg.worker_func cfg.arg nowAt intvalAt wakeAt 0 startNow n ++
        finiSeg cfg) = 0 := by
    rw [List.countP_append, countP_runLoop_init, countP_finiSeg_init]
  obtain ⟨h₂, hh₂⟩ := split_in_head (fun x => Event.isInit x) e he
    l₁ (initSeg cfg)
    (runLoop cfg.worker_func cfg.arg nowAt intvalAt wakeAt 0 startNow n ++
      finiSeg cfg) l₂ hct hs
  cases hi : cfg.init_func with
  | none =>
    rw [initSeg, hi] at hh₂
    exact absurd hh₂ (nil_ne_split l₁ h₂ e)
  | some f =>
    rw [initSeg, hi] at hh₂
    obtain ⟨hl₁, _, _⟩ := singleton_eq_split _ e l₁ h₂ hh₂
    rw [hl₁]
    rfl

theorem no_worker_after_fini {F A : Type} (cfg : WorkerConfig F A)
    (startNow : Nat) (nowAt intvalAt : Nat → Nat)
    (wakeAt : Nat → WakeReason) (n : Nat) :
    ∀ l₁ (e : Event F A) l₂,
      worker_run cfg startNow nowAt intvalAt wakeAt n = l₁ ++ e :: l₂ →
      Event.isFini e = true →
      List.countP (fun x => Event.isWorker x) l₂ = 0 := by
  intro l₁ e l₂ hs he
  unfold worker_run at hs
  have hch : List.countP (fun x => Event.isFini x)
      (initSeg cfg ++
        runLoop cfg.worker_func cfg.arg nowAt intvalAt wakeAt 0 startNow n)
      = 0 := by
    rw [List.countP_append, countP_runLoop_fini, countP_initSeg_fini]
  obtain ⟨t₁, ht₁⟩ := split_in_tail (fun x => Event.isFini x) e he
    (initSeg cfg ++
      runLoop cfg.worker_func cfg.arg nowAt intvalAt wakeAt 0 startNow n)
    (finiSeg cfg) l₁ l₂ hch hs
  cases hf : cfg.fini_func with
  | none =>
    rw [finiSeg, hf] at ht₁
    exact absurd ht₁ (nil_ne_split t₁ l₂ e)
  | some f =>
    rw [finiSeg, hf] at ht₁
    obtain ⟨_, _, hl₂⟩ := singleton_eq_split _ e t₁ l₂ ht₁
    rw [hl₂]
    rfl

/-! Claim theorems. -/

/-- C1: in the run loop's wait step, the next absolute deadline is
`last + interval`, with `interval` the value read under the lock at that
moment (`intvalAt i`).  If that deadline is still in the future the
thread waits on the condition variable for exactly the remaining
duration `deadline - now`, and the continuation of the loop runs with
`last` advanced to the computed deadline regardless of why the wait
returned (the wake-reason oracle `wakeAt` is universally quantified and
never inspected).  If the deadline has already passed the thread emits
no wait and the continuation runs with `last` set to the current time
`nowAt i`. -/
theorem wait_step_deadline {F A : Type} (wf : F) (a : A)
    (nowAt intvalAt : Nat → Nat) (wakeAt : Nat → WakeReason)
    (i last n : Nat) :
    (nowAt i < last + intvalAt i →
      runLoop wf a nowAt intvalAt wakeAt i last (n + 1) =
        Event.workerCall wf a ::
          Event.waited (last + intvalAt i - nowAt i) ::
          runLoop wf a nowAt intvalAt wakeAt (i + 1) (last + intvalAt i) n) ∧
    (last + intvalAt i ≤ nowAt i →
      runLoop wf a nowAt intvalAt wakeAt i last (n + 1) =
        Event.workerCall wf a :: Event.skippedWait ::
          runLoop wf a nowAt intvalAt wakeAt (i + 1) (nowAt i) n) := by
  constructor
  · intro h
    rw [runLoop_succ, waitStep_future _ _ _ h]
    rfl
  · intro h
    rw [runLoop_succ, waitStep_overdue _ _ _ h]
    rfl

/-- Witness for C1: both branches at concrete schedules.  With interval
10 and a clock read of 0 the thread waits exactly 10 units; with a clock
read of 25 past the deadline 10 it skips the wait. -/
theorem wait_step_deadline_witness :
    (runLoop (0 : Nat) (0 : Nat) (fun _ => 0) (fun _ => 10)
        (fun _ => WakeReason.notified) 0 0 1 =
      [Event.workerCall 0 0, Event.waited 10]) ∧
    (runLoop (0 : Nat) (0 : Nat) (fun _ => 25) (fun _ => 10)
        (fun _ => WakeReason.timeout) 0 0 1 =
      [Event.workerCall 0 0, Event.skippedWait]) := by
  constructor
  · exact (wait_step_deadline (0 : Nat) (0 : Nat) (fun _ => 0)
      (fun _ => 10) (fun _ => WakeReason.notified) 0 0 0).1 (by decide)
  · exact (wait_step_deadline (0 : Nat) (0 : Nat) (fun _ => 25)
      (fun _ => 10) (fun _ => WakeReason.timeout) 0 0 0).2 (by decide)

/-- Counterexample to C3 as stated.  Schedule: interval constantly 10,
loop anchor 0, first clock read 0, so iteration 0 begins a condvar wait
with timeout 10 toward deadline 10.  A `set_interval` notify interrupts
that sleep: the wait returns with reason `notified` and the next
lock-site clock read is 3, before the pending deadline 10 (`3 < 10`).
The trace shows that upon this wake the thread immediately invokes
`worker_func` (the event at index 2 is a `workerCall` well before the
deadline) — it does not merely re-evaluate its deadline.  So the claim
that the task is not forced to run immediately is false on the code. -/
theorem set_interval_wake_runs_task_counterexample :
    runLoop (0 : Nat) (0 : Nat) (fun i => if i = 0 then 0 else 3)
        (fun _ => 10) (fun _ => WakeReason.notified) 0 0 2 =
      [Event.workerCall 0 0, Event.waited 10,
       Event.workerCall 0 0, Event.waited 17] ∧
    (runLoop (0 : Nat) (0 : Nat) (fun i => if i = 0 then 0 else 3)
        (fun _ => 10) (fun _ => WakeReason.notified) 0 0 2)[2]? =
      some (Event.workerCall 0 0) ∧
    3 < 10 := by
  refine ⟨rfl, rfl, by decide⟩

/-- C3 amended: when a notify (e.g. from `set_interval`) interrupts the
in-progress sleep of iteration `i`, the thread advances `last` to the
deadline computed when that sleep began (from the interval value in
effect at that time), re-enters the loop and — the shutdown flag still
being false — invokes `worker_func` immediately upon the wake; the new
interval value is used only in the next deadline calculation, at the
wait step of iteration `i + 1`. -/
theorem set_interval_wake_reruns_task {F A : Type} (wf : F) (a : A)
    (nowAt intvalAt : Nat → Nat) (wakeAt : Nat → WakeReason)
    (i last n : Nat) (hw : nowAt i < last + intvalAt i) :
    runLoop wf a nowAt intvalAt wakeAt i last (n + 1 + 1) =
      Event.workerCall wf a ::
        Event.waited (last + intvalAt i - nowAt i) ::
        Event.workerCall wf a ::
        waitEvt (waitStep (last + intvalAt i) (intvalAt (i + 1))
          (nowAt (i + 1))).2 ::
        runLoop wf a nowAt intvalAt wakeAt (i + 1 + 1)
          (waitStep (last + intvalAt i) (intvalAt (i + 1))
            (nowAt (i + 1))).1 n := by
  rw [runLoop_succ, waitStep_future _ _ _ hw]
  rfl

/-- Witness for the amended C3, at the counterexample's schedule: the
interrupted sleep (wake observed at time 3, deadline 10) is followed by
an immediate task invocation and the next deadline is computed from the
anchor 10. -/
theorem set_interval_wake_reruns_task_witness :
    runLoop (0 : Nat) (0 : Nat) (fun i => if i = 0 then 0 else 3)
        (fun _ => 10) (fun _ => WakeReason.notified) 0 0 3 =
      [Event.workerCall 0 0, Event.waited 10, Event.workerCall 0 0,
       Event.waited 17, Event.workerCall 0 0, Event.waited 27] := by
  exact set_interval_wake_reruns_task (0 : Nat) (0 : Nat)
    (fun i => if i = 0 then 0 else 3) (fun _ => 10)
    (fun _ => WakeReason.notified) 0 0 1 (by decide)

/-- C10: the first task invocation of a started worker happens before
any wait on the condition variable: for every execution completing at
least one loop iteration, the part of the thread trace preceding the
first `workerCall` is exactly the init invocation when `init_func` is
present and empty otherwise — in particular it contains no wait
event. -/
theorem first_run_immediate {F A : Type} (cfg : WorkerConfig F A)
    (startNow : Nat) (nowAt intvalAt : Nat → Nat)
    (wakeAt : Nat → WakeReason) (n : Nat) (h : 0 < n) :
    (worker_run cfg startNow nowAt intvalAt wakeAt n).takeWhile
        (fun e => !Event.isWorker e) = initSeg cfg ∧
    ∃ rest,
      worker_run cfg startNow nowAt intvalAt wakeAt n =
        initSeg cfg ++ Event.workerCall cfg.worker_func cfg.arg :: rest := by
  obtain ⟨m, rfl⟩ : ∃ m, n = m + 1 := ⟨n - 1, by omega⟩
  unfold worker_run
  rw [runLoop_succ]
  constructor
  · cases hi : cfg.init_func with
    | none =>
      rw [initSeg, hi]
      simp [Event.isWorker]
    | some f =>
      rw [initSeg, hi]
      simp [Event.isWorker, Event.isInit, List.takeWhile]
  · exact ⟨waitEvt (waitStep startNow (intvalAt 0) (nowAt 0)).2 ::
      runLoop cfg.worker_func cfg.arg nowAt intvalAt wakeAt 1
        (waitStep startNow (intvalAt 0) (nowAt 0)).1 m ++ finiSeg cfg,
      by rw [List.append_assoc]; rfl⟩

/-- Witness for C10 at a concrete worker: with both optional callbacks
present, the prefix of the trace before the first task invocation is
exactly the init invocation. -/
theorem first_run_immediate_witness :
    (worker_run { intval := 10, shutdown := false, init_func := some 7,
                  worker_func := 8, fini_func := some 9,
                  arg := (5 : Nat) } 0
      (fun _ => 0) (fun _ => 10) (fun _ => WakeReason.timeout) 1).takeWhile
        (fun e => !Event.isWorker e) = [Event.initCall 7 5] := by
  exact (first_run_immediate
    { intval := 10, shutdown := false, init_func := some 7,
      worker_func := 8, fini_func := some 9, arg := (5 : Nat) } 0
    (fun _ => 0) (fun _ => 10) (fun _ => WakeReason.timeout) 1 (by decide)).1

/-- C2: for every execution of the background thread (trace of
`worker_run`): the init-site invocation occurs exactly once when
`init_func` is present and never otherwise, and always before the first
task invocation; the loop checks `shutdown` at the top of every
iteration and, once the flag is observed true (after `n` iterations in
which it was false), no further task invocation occurs — the trace
contains exactly `n` task invocations; and the fini-site invocation
occurs exactly once when `fini_func` is present and never otherwise,
with no task invocation after it before the thread terminates. -/
theorem lifecycle_phases {F A : Type} (cfg : WorkerConfig F A)
    (startNow : Nat) (nowAt intvalAt : Nat → Nat)
    (wakeAt : Nat → WakeReason) (n : Nat) :
    List.countP (fun e => Event.isInit e)
        (worker_run cfg startNow nowAt intvalAt wakeAt n) =
      (if cfg.init_func.isSome then 1 else 0) ∧
    List.countP (fun e => Event.isFini e)
        (worker_run cfg startNow nowAt intvalAt wakeAt n) =
      (if cfg.fini_func.isSome then 1 else 0) ∧
    List.countP (fun e => Event.isWorker e)
        (worker_run cfg startNow nowAt intvalAt wakeAt n) = n ∧
    (∀ l₁ (e : Event F A) l₂,
      worker_run cfg startNow nowAt intvalAt wakeAt n = l₁ ++ e :: l₂ →
      Event.isInit e = true →
      List.countP (fun x => Event.isWorker x) l₁ = 0) ∧
    (∀ l₁ (e : Event F A) l₂,
      worker_run cfg startNow nowAt intvalAt wakeAt n = l₁ ++ e :: l₂ →
      Event.isFini e = true →
      List.countP (fun x => Event.isWorker x) l₂ = 0) := by
  refine ⟨?_, ?_, ?_,
    no_worker_before_init cfg startNow nowAt intvalAt wakeAt n,
    no_worker_after_fini cfg startNow nowAt intvalAt wakeAt n⟩
  · unfold worker_run
    rw [List.countP_append, List.countP_append, countP_runLoop_init,
      countP_initSeg_init, countP_finiSeg_init]
    omega
  · unfold worker_run
    rw [List.countP_append, List.countP_append, countP_runLoop_fini,
      countP_initSeg_fini, countP_finiSeg_fini]
    omega
  · unfold worker_run
    rw [List.countP_append, List.countP_append, countP_runLoop_worker,
      countP_initSeg_worker, countP_finiSeg_worker]
    omega

/-- Witness for C2 at a concrete single-iteration execution with both
optional callbacks present: no task invocation follows the fini
invocation. -/
theorem lifecycle_phases_witness :
    List.countP (fun x => Event.isWorker x) ([] : List (Event Nat Nat))
      = 0 := by
  exact (lifecycle_phases
      { intval := 10, shutdown := false, init_func := some 7,
        worker_func := 8, fini_func := some 9, arg := (5 : Nat) }
      0 (fun _ => 0) (fun _ => 10) (fun _ => WakeReason.timeout)
      1).2.2.2.2
    [Event.initCall 7 5, Event.workerCall 8 5, Event.waited 10]
    (Event.finiCall 9 5) [] (by rfl) (by rfl)

/-- C4: calling `start` on a Worker that already has a background thread
returns the typed `WorkerAlreadyStartedError` (not a panic), spawns no
second thread and leaves the handle unchanged; calling `start` on a
not-yet-started Worker spawns exactly one thread and returns `Ok`;
`is_started` is false on a freshly constructed Worker and permanently
true after a successful start — no other operation clears the thread
handle. -/
theorem start_once {F A : Type} (w : Worker F A) (tid d intval : Nat)
    (init_func : Option F) (worker_func : F) (fini_func : Option F)
    (arg : A) :
    (w.is_started = false →
      (w.start tid).result = Except.ok () ∧ (w.start tid).spawned = 1 ∧
      (w.start tid).worker.is_started = true) ∧
    (w.is_started = true →
      (w.start tid).result = Except.error {} ∧
      (w.start tid).spawned = 0 ∧ (w.start tid).worker = w) ∧
    (Worker.new intval init_func worker_func fini_func arg :
      Worker F A).is_started = false ∧
    (∀ w' b, w.set_interval d = Except.ok (w', b) →
      w'.thread = w.thread) ∧
    (∀ w', w.set_interval_nowake d = Except.ok w' →
      w'.thread = w.thread) ∧
    (w.wake_up).1.thread = w.thread := by
  refine ⟨?_, ?_, rfl, ?_, ?_, rfl⟩
  · intro h
    have ht : w.thread = none := by
      cases hw : w.thread with
      | none => rfl
      | some t => rw [Worker.is_started, hw] at h; exact absurd h (by simp)
    simp [Worker.start, ht, Worker.is_started]
  · intro h
    obtain ⟨t, ht⟩ : ∃ t, w.thread = some t := by
      cases hw : w.thread with
      | none => rw [Worker.is_started, hw] at h; exact absurd h (by simp)
      | some t => exact ⟨t, rfl⟩
    simp [Worker.start, ht]
  · intro w' b hset
    unfold Worker.set_interval at hset
    cases hl : lockCell w.cell with
    | error e => rw [hl] at hset; exact absurd hset (by simp)
    | ok cfg =>
      rw [hl] at hset
      injection hset with hset'
      injection hset' with hw hb
      rw [← hw]
  · intro w' hset
    unfold Worker.set_interval_nowake at hset
    cases hl : lockCell w.cell with
    | error e => rw [hl] at hset; exact absurd hset (by simp)
    | ok cfg =>
      rw [hl] at hset
      injection hset with hset'
      rw [← hset']

/-- Witness for C4: a fresh worker is not started and its first start
spawns one thread; a second start spawns none. -/
theorem start_once_witness :
    ((Worker.new 10 (some 7) 8 (some 9) (5 : Nat) :
        Worker Nat Nat).start 1).spawned = 1 ∧
    ((((Worker.new 10 (some 7) 8 (some 9) (5 : Nat) :
        Worker Nat Nat).start 1).worker.start 2).spawned = 0) := by
  constructor
  · exact ((start_once (Worker.new 10 (some 7) 8 (some 9) (5 : Nat) :
      Worker Nat Nat) 1 10 10 (some 7) 8 (some 9) 5).1 (by rfl)).2.1
  · exact ((start_once ((Worker.new 10 (some 7) 8 (some 9) (5 : Nat) :
      Worker Nat Nat).start 1).worker 2 10 10 (some 7) 8 (some 9)
      5).2.1 (by rfl)).2.1

/-- C5: the destructor of a started Worker performs, in source order:
acquire the lock, set `shutdown = true`, notify the condition variable,
release the lock, then join the background thread; the join blocks
until `worker_run` has run to completion, so at destructor return the
entire thread trace — the fini invocation included — has occurred, and
in that trace no task invocation occurs after the fini callback
begins. -/
theorem drop_protocol {F A : Type} (w : Worker F A) (t : Nat)
    (ht : w.thread = some t) (startNow : Nat)
    (nowAt intvalAt : Nat → Nat) (wakeAt : Nat → WakeReason) (n : Nat) :
    dropActions w =
      [CtlAction.lockAcq, CtlAction.setShutdownTrue, CtlAction.notifyOne,
       CtlAction.unlock, CtlAction.joinThread] ∧
    (∀ w', w.drop = Except.ok w' → w'.cell.cfg.shutdown = true) ∧
    eventsAtDropReturn w startNow nowAt intvalAt wakeAt n =
      worker_run w.cell.cfg startNow nowAt intvalAt wakeAt n ∧
    (∀ l₁ (e : Event F A) l₂,
      worker_run w.cell.cfg startNow nowAt intvalAt wakeAt n =
        l₁ ++ e :: l₂ →
      Event.isFini e = true →
      List.countP (fun x => Event.isWorker x) l₂ = 0) := by
  refine ⟨?_, ?_, ?_,
    no_worker_after_fini w.cell.cfg startNow nowAt intvalAt wakeAt n⟩
  · rw [dropActions, ht]
    rfl
  · intro w' hdrop
    unfold Worker.drop at hdrop
    cases hl : lockCell w.cell with
    | error e => rw [hl] at hdrop; exact absurd hdrop (by simp)
    | ok cfg =>
      rw [hl] at hdrop
      injection hdrop with hdrop'
      rw [← hdrop']
  · rw [eventsAtDropReturn, ht]

/-- Witness for C5 at a concrete started worker: its destructor joins
the thread after setting shutdown and notifying. -/
theorem drop_protocol_witness :
    dropActions ((Worker.new 10 (some 7) 8 (some 9) (5 : Nat) :
        Worker Nat Nat).start 1).worker =
      [CtlAction.lockAcq, CtlAction.setShutdownTrue, CtlAction.notifyOne,
       CtlAction.unlock, CtlAction.joinThread] := by
  exact (drop_protocol ((Worker.new 10 (some 7) 8 (some 9) (5 : Nat) :
    Worker Nat Nat).start 1).worker 1 (by rfl) 0 (fun _ => 0)
    (fun _ => 10) (fun _ => WakeReason.timeout) 1).1

theorem lockCell_ok {F A : Type} (m : MutexCell F A)
    (cfg : WorkerConfig F A) (h : lockCell m = Except.ok cfg) :
    m.poisoned = false ∧ cfg = m.cfg := by
  unfold lockCell at h
  cases hp : m.poisoned with
  | true =>
    rw [hp] at h
    simp at h
  | false =>
    rw [hp] at h
    simp at h
    exact ⟨rfl, h.symm⟩

/-- C6: after construction, across every public operation only `intval`
and `shutdown` ever change: `init_func`, `worker_func`, `fini_func` and
`arg` are preserved by every operation; `start` and `wake_up` leave the
shared state entirely untouched (`wake_up` changes no configuration
field at all); `set_interval` and `set_interval_nowake` change only
`intval`; `shutdown` is `false` at construction, preserved by every
operation except destruction, and set to `true` by the destructor. -/
theorem config_immutable {F A : Type} (w : Worker F A)
    (tid d intval : Nat) (init_func : Option F) (worker_func : F)
    (fini_func : Option F) (arg : A) :
    (Worker.new intval init_func worker_func fini_func arg :
        Worker F A).cell.cfg =
      { intval := intval, shutdown := false, init_func := init_func,
        worker_func := worker_func, fini_func := fini_func,
        arg := arg } ∧
    (w.start tid).worker.cell = w.cell ∧
    w.wake_up = (w, true) ∧
    (∀ w' b, w.set_interval d = Except.ok (w', b) →
      w'.cell.cfg = { w.cell.cfg with intval := d }) ∧
    (∀ w', w.set_interval_nowake d = Except.ok w' →
      w'.cell.cfg = { w.cell.cfg with intval := d }) ∧
    (∀ w', w.drop = Except.ok w' →
      w'.cell.cfg = { w.cell.cfg with shutdown := true }) := by
  refine ⟨rfl, ?_, rfl, ?_, ?_, ?_⟩
  · cases hw : w.thread <;> simp [Worker.start, hw]
  · intro w' b hset
    unfold Worker.set_interval at hset
    cases hl : lockCell w.cell with
    | error e => rw [hl] at hset; exact absurd hset (by simp)
    | ok cfg =>
      obtain ⟨hp, hcfg⟩ := lockCell_ok w.cell cfg hl
      rw [hl] at hset
      injection hset with hset'
      injection hset' with hw hb
      rw [← hw, hcfg]
  · intro w' hset
    unfold Worker.set_interval_nowake at hset
    cases hl : lockCell w.cell with
    | error e => rw [hl] at hset; exact absurd hset (by simp)
    | ok cfg =>
      obtain ⟨hp, hcfg⟩ := lockCell_ok w.cell cfg hl
      rw [hl] at hset
      injection hset with hset'
      rw [← hset', hcfg]
  · intro w' hdrop
    unfold Worker.drop at hdrop
    cases hl : lockCell w.cell with
    | error e => rw [hl] at hdrop; exact absurd hdrop (by simp)
    | ok cfg =>
      obtain ⟨hp, hcfg⟩ := lockCell_ok w.cell cfg hl
      rw [hl] at hdrop
      injection hdrop with hdrop'
      rw [← hdrop', hcfg]

/-- Witness for C6: set_interval on a concrete worker changes only the
intval field of the shared configuration. -/
theorem config_immutable_witness :
    ({ thread := none,
       cell := { poisoned := false,
                 cfg := { intval := 3, shutdown := false,
                          init_func := some 7, worker_func := 8,
                          fini_func := some 9, arg := 5 } } } :
      Worker Nat Nat).cell.cfg =
      { intval := 3, shutdown := false, init_func := some 7,
        worker_func := 8, fini_func := some 9, arg := (5 : Nat) } := by
  exact (config_immutable (Worker.new 10 (some 7) 8 (some 9) (5 : Nat) :
      Worker Nat Nat) 1 3 10 (some 7) 8 (some 9) 5).2.2.2.1
    _ true (by rfl)

/-- C7: once the shared mutex is poisoned (a callback panicked while
the background thread held the lock), every subsequent lock attempt
from either thread panics immediately with the expect message instead
of operating on the shared state: `get_interval`, `set_interval`,
`set_interval_nowake`, the destructor, and each of the four lock
acquisitions inside the run loop (init read, top-of-loop shutdown
check, pre-wait reacquisition and fini read).  None of them offers a
repair path: no operation ever clears the poisoned flag. -/
theorem poisoned_lock_panics {F A : Type} (w : Worker F A) (d : Nat)
    (h : w.cell.poisoned = true) :
    w.get_interval = Except.error mutexPanicMsg ∧
    w.set_interval d = Except.error mutexPanicMsg ∧
    w.set_interval_nowake d = Except.error mutexPanicMsg ∧
    w.drop = Except.error mutexPanicMsg ∧
    worker_run_init_read w.cell = Except.error mutexPanicMsg ∧
    worker_run_loop_check w.cell = Except.error mutexPanicMsg ∧
    worker_run_wait_read w.cell = Except.error mutexPanicMsg ∧
    worker_run_fini_read w.cell = Except.error mutexPanicMsg := by
  have hl : lockCell w.cell = Except.error mutexPanicMsg := by
    simp [lockCell, h]
  refine ⟨?_, ?_, ?_, ?_, ?_, ?_, ?_, ?_⟩ <;>
    simp [Worker.get_interval, Worker.set_interval,
      Worker.set_interval_nowake, Worker.drop, worker_run_init_read,
      worker_run_loop_check, worker_run_wait_read,
      worker_run_fini_read, hl, Except.map]

/-- A concrete worker handle whose mutex has been poisoned by a
callback panic. -/
def poisonedW : Worker Nat Nat :=
  { thread := some 1,
    cell := { poisoned := true,
              cfg := { intval := 10, shutdown := false,
                       init_func := none, worker_func := 8,
                       fini_func := none, arg := 5 } } }

/-- Witness for C7: on the concrete poisoned worker, get_interval
panics with the expect message. -/
theorem poisoned_lock_panics_witness :
    poisonedW.get_interval = Except.error mutexPanicMsg := by
  exact (poisoned_lock_panics poisonedW 3 (by rfl)).1

/-- C8: `get_interval` returns the currently configured cadence: on any
worker whose mutex is healthy it succeeds with the stored `intval`
(there is no error-return path; the only non-success is the poisoning
panic); immediately after construction with interval `d` it returns
`d`; and immediately after a successful `set_interval d2` or
`set_interval_nowake d2` it returns `d2`. -/
theorem get_interval_cadence {F A : Type} (w : Worker F A)
    (d d2 : Nat) (init_func : Option F) (worker_func : F)
    (fini_func : Option F) (arg : A) :
    (w.cell.poisoned = false →
      w.get_interval = Except.ok w.cell.cfg.intval) ∧
    (Worker.new d init_func worker_func fini_func arg :
      Worker F A).get_interval = Except.ok d ∧
    (∀ w' b, w.set_interval d2 = Except.ok (w', b) →
      w'.get_interval = Except.ok d2) ∧
    (∀ w', w.set_interval_nowake d2 = Except.ok w' →
      w'.get_interval = Except.ok d2) := by
  refine ⟨?_, rfl, ?_, ?_⟩
  · intro hp
    simp [Worker.get_interval, lockCell, hp, Except.map]
  · intro w' b hset
    unfold Worker.set_interval at hset
    cases hl : lockCell w.cell with
    | error e => rw [hl] at hset; exact absurd hset (by simp)
    | ok cfg =>
      obtain ⟨hp, hcfg⟩ := lockCell_ok w.cell cfg hl
      rw [hl] at hset
      injection hset with hset'
      injection hset' with hw hb
      rw [← hw]
      simp [Worker.get_interval, lockCell, hp, Except.map]
  · intro w' hset
    unfold Worker.set_interval_nowake at hset
    cases hl : lockCell w.cell with
    | error e => rw [hl] at hset; exact absurd hset (by simp)
    | ok cfg =>
      obtain ⟨hp, hcfg⟩ := lockCell_ok w.cell cfg hl
      rw [hl] at hset
      injection hset with hset'
      rw [← hset']
      simp [Worker.get_interval, lockCell, hp, Except.map]

/-- Witness for C8: a fresh worker built with interval 10 reports
interval 10. -/
theorem get_interval_cadence_witness :
    (Worker.new 10 (some 7) 8 (some 9) (5 : Nat) :
      Worker Nat Nat).get_interval = Except.ok 10 := by
  exact (get_interval_cadence (Worker.new 10 (some 7) 8 (some 9)
    (5 : Nat) : Worker Nat Nat) 10 3 (some 7) 8 (some 9) 5).1 (by rfl)

/-- C9: dropping a never-started Worker returns without blocking: the
destructor still sets `shutdown = true` under the lock and notifies the
condition variable, but since no thread handle exists its action
sequence ends at the unlock — no join — and no thread event (hence no
`init_func`, `worker_func` or `fini_func` invocation) has ever occurred
at destructor return. -/
theorem drop_unstarted {F A : Type} (w : Worker F A)
    (h : w.thread = none) (startNow : Nat)
    (nowAt intvalAt : Nat → Nat) (wakeAt : Nat → WakeReason) (n : Nat) :
    dropActions w =
      [CtlAction.lockAcq, CtlAction.setShutdownTrue,
       CtlAction.notifyOne, CtlAction.unlock] ∧
    (w.cell.poisoned = false →
      w.drop = Except.ok
        { thread := none,
          cell := { w.cell with
                    cfg := { w.cell.cfg with shutdown := true } } }) ∧
    eventsAtDropReturn w startNow nowAt intvalAt wakeAt n = [] := by
  refine ⟨?_, ?_, ?_⟩
  · rw [dropActions, h]
    rfl
  · intro hp
    simp [Worker.drop, lockCell, hp]
  · rw [eventsAtDropReturn, h]

/-- Witness for C9: dropping a concrete never-started worker leaves an
empty thread trace. -/
theorem drop_unstarted_witness :
    eventsAtDropReturn (Worker.new 10 (some 7) 8 (some 9) (5 : Nat) :
      Worker Nat Nat) 0 (fun _ => 0) (fun _ => 10)
      (fun _ => WakeReason.timeout) 1 = [] := by
  exact (drop_unstarted (Worker.new 10 (some 7) 8 (some 9) (5 : Nat) :
    Worker Nat Nat) (by rfl) 0 (fun _ => 0) (fun _ => 10)
    (fun _ => WakeReason.timeout) 1).2.2

end LibacfutilsWorker
